import Mathlib

/-!
Verification of `src/bench/micro_load.c`, a microbenchmark that allocates a
buffer `A` of `size` C `int`s, initializes `A[k] = k`, then accumulates
`A[i % size]` for `i` in `[0, N)` into a `volatile int sink`, prints `sink`
and returns 0.  The two `long` parameters come from the command line with
defaults `N = 1000000` and `size = 10000000`.

The embedding models C `long` values as unbounded `Int` (the inputs of
interest are far from 64-bit overflow), C `int` storage as truncation to the
signed 32-bit range, C `%` on `long` as `Int.tmod` (truncated remainder), and
the access loop as explicit state passing over a buffer/accumulator pair.
-/

namespace MicroLoad

/-- Truncation of an unbounded integer to a signed 32-bit value: the effect of
storing a value into a C `int` on a two's-complement machine, and of the
wrapping `int` addition `sink += ...`. -/
def toInt32 (x : Int) : Int := (x + 2147483648) % 4294967296 - 2147483648

/-- Default access count, from `long N = argc>1 ? atol(argv[1]) : 1000000;`. -/
def defaultN : Int := 1000000

/-- Default working-set size, from
`long size = argc>2 ? atol(argv[2]) : 10000000;`. -/
def defaultS : Int := 10000000

/-- Parameter selection of `main`: the list holds the numeric values parsed
from the command-line arguments; `N` is the first if present (else 1000000)
and `size` is the second if present (else 10000000). -/
def parseArgs (args : List Int) : Int × Int :=
  (args.getD 0 defaultN, args.getD 1 defaultS)

/-- The index expression `i % size` of the access loop; C `%` on `long` is the
truncated-division remainder, i.e. `Int.tmod`. -/
def accessIdx (i size : Int) : Int := Int.tmod i size

/-- The buffer after the initialization loop `for(long i=0;i<size;i++) A[i]=i;`:
element `k` holds the `int` truncation of `k`. -/
def initBuf (size : Nat) : List Int :=
  (List.range size).map (fun k : Nat => toInt32 k)

/-- Program state during the access loop: the buffer `A` and the accumulator
`sink`. -/
structure RunState where
  buf : List Int
  sink : Int

/-- One iteration `sink += A[i % size];` of the access loop at counter value
`i`: only the accumulator changes, by a 32-bit wrapping addition of the buffer
element read at index `i mod size`. -/
def accessStep (size : Int) (i : Nat) (st : RunState) : RunState :=
  { st with sink := toInt32 (st.sink + st.buf.getD (accessIdx i size).toNat 0) }

/-- State after the first `n` iterations of the access loop, starting from the
freshly initialized buffer and `sink = 0`. -/
def runLoop (size : Int) : Nat → RunState
  | 0 => ⟨initBuf size.toNat, 0⟩
  | n + 1 => accessStep size n (runLoop size n)

/-- Number of iterations the access loop `for(long i=0;i<N;i++)` executes:
`N` when `N` is nonnegative, `0` otherwise. -/
def iterations (N : Int) : Nat := N.toNat

/-- The final accumulator value, which `printf("%d\n", sink)` prints. -/
def runSink (N size : Int) : Int := (runLoop size (iterations N)).sink

/-- The whole program: select parameters, run the loop, and produce the pair
(printed value, exit status); `main` always returns 0. -/
def progRun (args : List Int) : Int × Int :=
  let p := parseArgs args
  (runSink p.1 p.2, 0)

/-- Reference computation: the exact mathematical sum of `i mod s` over
`i` in `[0, n)`, with no 32-bit truncation. -/
def refSum (n s : Nat) : Nat := ∑ i ∈ Finset.range n, i % s

theorem toInt32_add_left (a b : Int) : toInt32 (toInt32 a + b) = toInt32 (a + b) := by
  unfold toInt32
  omega

theorem toInt32_add_right (a b : Int) : toInt32 (a + toInt32 b) = toInt32 (a + b) := by
  unfold toInt32
  omega

theorem toInt32_congr_add {a b : Int} (c : Int) (h : toInt32 a = toInt32 b) :
    toInt32 (a + c) = toInt32 (b + c) := by
  unfold toInt32 at *
  omega

theorem runLoop_buf (size : Int) (n : Nat) :
    (runLoop size n).buf = initBuf size.toNat := by
  induction n with
  | zero => rfl
  | succ n ih => simpa [runLoop, accessStep] using ih

theorem initBuf_getD {k s : Nat} (h : k < s) :
    (initBuf s).getD k 0 = toInt32 k := by
  rw [initBuf, List.getD_eq_getElem?_getD, List.getElem?_map, List.getElem?_range h,
    Option.map_some', Option.getD_some]

theorem initBuf_read {s : Int} (hs : 1 ≤ s) (i : Nat) :
    (initBuf s.toNat).getD (accessIdx (i : Int) s).toNat 0
      = toInt32 ((i : Int) % s) := by
  have hidx : accessIdx (i : Int) s = (i : Int) % s :=
    Int.tmod_eq_emod (Int.ofNat_nonneg i) (by omega)
  have h0 : 0 ≤ (i : Int) % s := Int.emod_nonneg _ (by omega)
  have h1 : (i : Int) % s < s := Int.emod_lt_of_pos _ (by omega)
  rw [hidx, initBuf_getD (by omega), Int.toNat_of_nonneg h0]

theorem runLoop_sink_eq (s : Int) (n : Nat) :
    (runLoop s n).sink
      = toInt32 (∑ i ∈ Finset.range n,
          (initBuf s.toNat).getD (accessIdx (i : Int) s).toNat 0) := by
  induction n with
  | zero => rfl
  | succ n ih =>
    rw [runLoop]
    show toInt32 ((runLoop s n).sink
        + (runLoop s n).buf.getD (accessIdx (n : Int) s).toNat 0) = _
    rw [runLoop_buf, ih, Finset.sum_range_succ, toInt32_add_left]

theorem toInt32_sum_absorb (f : Nat → Int) (n : Nat) :
    toInt32 (∑ i ∈ Finset.range n, toInt32 (f i))
      = toInt32 (∑ i ∈ Finset.range n, f i) := by
  induction n with
  | zero => rfl
  | succ n ih =>
    rw [Finset.sum_range_succ, Finset.sum_range_succ, toInt32_add_right,
      toInt32_congr_add (f n) ih]

theorem runSink_formula (N S : Int) (hS : 1 ≤ S) :
    runSink N S = toInt32 ((refSum (iterations N) S.toNat : Nat)) := by
  rw [runSink, runLoop_sink_eq]
  rw [Finset.sum_congr rfl (fun i _ => initBuf_read hS i)]
  rw [toInt32_sum_absorb]
  congr 1
  rw [refSum, Nat.cast_sum]
  refine Finset.sum_congr rfl (fun i _ => ?_)
  have hs : ((S.toNat : Int)) = S := Int.toNat_of_nonneg (by omega)
  rw [Int.ofNat_emod, hs]

theorem tri_step (r : Nat) : (r + 1) * r / 2 = r * (r - 1) / 2 + r := by
  cases r with
  | zero => rfl
  | succ t =>
    have h : (t + 1 + 1) * (t + 1) = (t + 1) * t + 2 * (t + 1) := by ring
    rw [h, Nat.add_mul_div_left _ _ (by omega)]
    simp

theorem refSum_closed (n s : Nat) (hs : 0 < s) :
    refSum n s = n / s * (s * (s - 1) / 2) + n % s * (n % s - 1) / 2 := by
  induction n with
  | zero => simp [refSum]
  | succ n ih =>
    have hsum : refSum (n + 1) s = refSum n s + n % s := by
      rw [refSum, refSum, Finset.sum_range_succ]
    obtain ⟨q, r, hq, hrr, hr⟩ : ∃ q r, n / s = q ∧ n % s = r ∧ r < s :=
      ⟨n / s, n % s, rfl, rfl, Nat.mod_lt n hs⟩
    have hqr : s * q + r = n := by rw [← hq, ← hrr]; exact Nat.div_add_mod n s
    have htri : (r + 1) * r / 2 = r * (r - 1) / 2 + r := tri_step r
    by_cases hcase : r + 1 = s
    · have h1 : n + 1 = s * (q + 1) := by
        have hms : s * (q + 1) = s * q + s := by ring
        omega
      have hdiv : (n + 1) / s = q + 1 := by
        rw [h1, Nat.mul_div_cancel_left _ hs]
      have hmod : (n + 1) % s = 0 := by
        rw [h1, Nat.mul_mod_right]
      have hT2 : (r + 1) * r / 2 = s * (s - 1) / 2 := by
        rw [hcase, show r = s - 1 by omega]
      have hmul : (q + 1) * (s * (s - 1) / 2)
          = q * (s * (s - 1) / 2) + s * (s - 1) / 2 := by ring
      rw [hsum, hdiv, hmod, ih, hq, hrr]
      omega
    · have h1 : n + 1 = s * q + (r + 1) := by omega
      have hdiv : (n + 1) / s = q := by
        rw [h1, Nat.mul_add_div hs, Nat.div_eq_of_lt (show r + 1 < s by omega),
          Nat.add_zero]
      have hmod : (n + 1) % s = r + 1 := by
        rw [h1, Nat.mul_add_mod, Nat.mod_eq_of_lt (show r + 1 < s by omega)]
      rw [hsum, hdiv, hmod, ih, hq, hrr]
      have hx : (r + 1) * (r + 1 - 1) / 2 = (r + 1) * r / 2 := by
        simp
      rw [hx]
      omega

theorem refSum_of_le {n s : Nat} (h : n ≤ s) : refSum n s = n * (n - 1) / 2 := by
  rw [refSum,
    Finset.sum_congr rfl
      (fun i hi => Nat.mod_eq_of_lt (lt_of_lt_of_le (Finset.mem_range.mp hi) h))]
  exact Finset.sum_range_id n

theorem triCast (r : Nat) : ((r * (r - 1) / 2 : Nat) : Int) = (r : Int) * ((r : Int) - 1) / 2 := by
  cases r with
  | zero => rfl
  | succ t =>
    rw [Int.ofNat_ediv]
    simp only [Nat.add_sub_cancel]
    congr 1
    push_cast
    ring

theorem runLoop_one_sink (n : Nat) : (runLoop 1 n).sink = 0 := by
  induction n with
  | zero => rfl
  | succ n ih =>
    rw [runLoop]
    show toInt32 ((runLoop 1 n).sink
        + (runLoop 1 n).buf.getD (accessIdx (n : Int) 1).toNat 0) = 0
    rw [runLoop_buf, ih, accessIdx, Int.tmod_one]
    decide

/-- C1 (amended): for every `1 ≤ N ≤ S` the printed value is the triangular
number `N*(N-1)/2` reduced to the signed 32-bit range by the wrapping `int`
accumulator; it equals `N*(N-1)/2` itself only when that number is below
`2^31`. -/
theorem c1_sum_no_wraparound (N S : Int) (h1 : 1 ≤ N) (h2 : N ≤ S) :
    runSink N S = toInt32 (N * (N - 1) / 2) := by
  have hS : 1 ≤ S := le_trans h1 h2
  rw [runSink_formula N S hS]
  simp only [iterations]
  rw [refSum_of_le (show N.toNat ≤ S.toNat by omega), triCast,
    Int.toNat_of_nonneg (show (0:Int) ≤ N by omega)]

/-- Witness for C1 (amended) at `N = 3`, `S = 5`. -/
theorem c1_sum_no_wraparound_witness :
    (1:Int) ≤ 3 ∧ (3:Int) ≤ 5 ∧ runSink 3 5 = toInt32 (3 * (3 - 1) / 2) :=
  ⟨by norm_num, by norm_num, c1_sum_no_wraparound 3 5 (by norm_num) (by norm_num)⟩

/-- C1 as stated is false: at `N = S = 65537` the exact triangular number
`65537 * 65536 / 2 = 2147516416` exceeds `2^31 - 1`, the 32-bit accumulator
wraps, and the program prints `-2147450880` instead. -/
theorem c1_counterexample :
    ¬ (runSink 65537 65537 = 65537 * (65537 - 1) / 2) := by
  rw [runSink_formula 65537 65537 (by norm_num)]
  simp only [iterations]
  rw [show ((65537:Int).toNat) = 65537 from rfl,
    refSum_of_le (le_refl 65537)]
  decide

/-- C2 (amended): for `S ≥ 1` and `N > S` the printed value is
`floor(N/S) * (S*(S-1)/2) + (N mod S)*((N mod S)-1)/2` reduced to the signed
32-bit range by the wrapping `int` accumulator; it equals the unreduced
expression only when that number is below `2^31`. -/
theorem c2_sum_wraparound_cycles (N S : Int) (hS : 1 ≤ S) (hNS : S < N) :
    runSink N S
      = toInt32 (N / S * (S * (S - 1) / 2) + N % S * (N % S - 1) / 2) := by
  have hN : ((N.toNat : Int)) = N := Int.toNat_of_nonneg (by omega)
  have hSn : ((S.toNat : Int)) = S := Int.toNat_of_nonneg (by omega)
  rw [runSink_formula N S hS]
  simp only [iterations]
  rw [refSum_closed _ _ (show 0 < S.toNat by omega)]
  rw [Nat.cast_add, Nat.cast_mul, triCast, triCast, Int.ofNat_ediv,
    Int.ofNat_emod, hN, hSn]

/-- Witness for C2 (amended) at `N = 7`, `S = 3`, the worked example of the
spec: two full cycles contribute 3 each, the partial cycle contributes 0. -/
theorem c2_sum_wraparound_cycles_witness :
    (1:Int) ≤ 3 ∧ (3:Int) < 7
      ∧ runSink 7 3 = toInt32 (7 / 3 * (3 * (3 - 1) / 2) + 7 % 3 * (7 % 3 - 1) / 2) :=
  ⟨by norm_num, by norm_num, c2_sum_wraparound_cycles 7 3 (by norm_num) (by norm_num)⟩

/-- C2 as stated is false: at `N = 2^33`, `S = 2` the exact cycle sum is
`2^32 * 1 = 4294967296`, which the 32-bit accumulator wraps to `0`. -/
theorem c2_counterexample :
    ¬ (runSink 8589934592 2
        = 8589934592 / 2 * (2 * (2 - 1) / 2)
          + 8589934592 % 2 * (8589934592 % 2 - 1) / 2) := by
  rw [runSink_formula 8589934592 2 (by norm_num)]
  simp only [iterations]
  rw [show ((8589934592:Int).toNat) = 8589934592 from rfl,
    show ((2:Int).toNat) = 2 from rfl,
    refSum_closed 8589934592 2 (by norm_num)]
  decide

/-- C3: the program is a deterministic function of its two parameters: two
runs with identical `(N, S)` give identical results. -/
theorem c3_deterministic (N S : Int) (hN : 0 ≤ N) (hS : 1 ≤ S) :
    progRun [N, S] = progRun [N, S] := rfl

/-- Witness for C3 at `N = 2`, `S = 3`. -/
theorem c3_deterministic_witness :
    (0:Int) ≤ 2 ∧ (1:Int) ≤ 3 ∧ progRun [2, 3] = progRun [2, 3] :=
  ⟨by norm_num, by norm_num, c3_deterministic 2 3 (by norm_num) (by norm_num)⟩

/-- C4: with `N = 0` the access loop never runs and the accumulator keeps its
initial value `0`, whatever `S ≥ 1` is. -/
theorem c4_zero_accesses (S : Int) (hS : 1 ≤ S) : runSink 0 S = 0 := rfl

/-- Witness for C4 at `S = 7`. -/
theorem c4_zero_accesses_witness : (1:Int) ≤ 7 ∧ runSink 0 7 = 0 :=
  ⟨by norm_num, c4_zero_accesses 7 (by norm_num)⟩

/-- C5: with `S = 1` every access reads `Buffer[0] = 0`, so the printed value
is `0` for every `N ≥ 0`. -/
theorem c5_working_set_one (N : Int) (hN : 0 ≤ N) : runSink N 1 = 0 :=
  runLoop_one_sink (iterations N)

/-- Witness for C5 at `N = 4`. -/
theorem c5_working_set_one_witness : (0:Int) ≤ 4 ∧ runSink 4 1 = 0 :=
  ⟨by norm_num, c5_working_set_one 4 (by norm_num)⟩

/-- C6: zero arguments give `N = 1000000` and `S = 10000000`; one numeric
argument becomes `N` with `S` at its default; two numeric arguments become
`N` and `S` respectively. -/
theorem c6_argument_handling :
    parseArgs [] = (1000000, 10000000)
      ∧ (∀ n : Int, parseArgs [n] = (n, 10000000))
      ∧ (∀ n s : Int, parseArgs [n, s] = (n, s)) :=
  ⟨rfl, fun n => rfl, fun n s => rfl⟩

/-- C7: for `S ≥ 1` and `i ≥ 0` the index `i mod S` used to read the buffer
lies in `[0, S)`, so every read of the access loop is in bounds. -/
theorem c7_index_in_bounds (S i : Int) (hS : 1 ≤ S) (hi : 0 ≤ i) :
    0 ≤ accessIdx i S ∧ accessIdx i S < S := by
  rw [accessIdx, Int.tmod_eq_emod hi (by omega)]
  exact ⟨Int.emod_nonneg i (by omega), Int.emod_lt_of_pos i (by omega)⟩

/-- Witness for C7 at `S = 3`, `i = 5`. -/
theorem c7_index_in_bounds_witness :
    (1:Int) ≤ 3 ∧ (0:Int) ≤ 5 ∧ 0 ≤ accessIdx 5 3 ∧ accessIdx 5 3 < 3 := by
  refine ⟨by norm_num, by norm_num, c7_index_in_bounds 3 5 (by norm_num) (by norm_num)⟩

/-- C8: once initialization has established `Buffer[k] = k` on `[0, S)`, no
later step modifies any buffer element: the access loop changes only the
accumulator, so at exit the buffer is still the initialized one and still
holds `Buffer[k] = k`. -/
theorem c8_buffer_immutable (N S : Int) (hS : 1 ≤ S)
    (hinit : ∀ k : Nat, k < S.toNat → (initBuf S.toNat).getD k 0 = k) :
    (runLoop S (iterations N)).buf = initBuf S.toNat
      ∧ ∀ k : Nat, k < S.toNat → (runLoop S (iterations N)).buf.getD k 0 = k := by
  refine ⟨runLoop_buf S (iterations N), fun k hk => ?_⟩
  rw [runLoop_buf]
  exact hinit k hk

/-- Witness for C8 at `N = 3`, `S = 4`. -/
theorem c8_buffer_immutable_witness :
    (1:Int) ≤ 4
      ∧ (∀ k : Nat, k < (4:Int).toNat → (initBuf (4:Int).toNat).getD k 0 = k)
      ∧ ((runLoop 4 (iterations 3)).buf = initBuf (4:Int).toNat
          ∧ ∀ k : Nat, k < (4:Int).toNat → (runLoop 4 (iterations 3)).buf.getD k 0 = k) :=
  ⟨by norm_num, by decide, c8_buffer_immutable 3 4 (by norm_num) (by decide)⟩

/-- C9: the printed value is the exact mathematical sum of the buffer
elements read at indices `i mod S` for `i` in `[0, N)`, reduced modulo
`2^32` and reinterpreted as a signed 32-bit integer: the accumulator is a
wrapping 32-bit `int`, not an arbitrarily wide integer. -/
theorem c9_wrapped_sum (N S : Int) (hN : 0 ≤ N) (hS : 1 ≤ S) :
    runSink N S
      = toInt32 (∑ i ∈ Finset.range (iterations N),
          (initBuf S.toNat).getD (accessIdx (i : Int) S).toNat 0) :=
  runLoop_sink_eq S (iterations N)

/-- Witness for C9 at `N = 5`, `S = 3`. -/
theorem c9_wrapped_sum_witness :
    (0:Int) ≤ 5 ∧ (1:Int) ≤ 3
      ∧ runSink 5 3
        = toInt32 (∑ i ∈ Finset.range (iterations 5),
            (initBuf (3:Int).toNat).getD (accessIdx (i : Int) 3).toNat 0) :=
  ⟨by norm_num, by norm_num, c9_wrapped_sum 5 3 (by norm_num) (by norm_num)⟩

/-- C10: a negative first argument makes the access loop run zero times; the
program prints `0` and exits with status `0`. -/
theorem c10_negative_count (n : Int) (hn : n < 0) :
    iterations n = 0 ∧ progRun [n] = (0, 0) ∧ ∀ s : Int, progRun [n, s] = (0, 0) := by
  have h0 : iterations n = 0 := by unfold iterations; omega
  refine ⟨h0, ?_, fun s => ?_⟩
  · show (runSink n defaultS, (0:Int)) = (0, 0)
    rw [runSink, h0]
    rfl
  · show (runSink n s, (0:Int)) = (0, 0)
    rw [runSink, h0]
    rfl

/-- Witness for C10 at `n = -5`. -/
theorem c10_negative_count_witness :
    (-5:Int) < 0
      ∧ (iterations (-5) = 0 ∧ progRun [-5] = (0, 0)
          ∧ ∀ s : Int, progRun [-5, s] = (0, 0)) :=
  ⟨by norm_num, c10_negative_count (-5) (by norm_num)⟩

end MicroLoad
